import Mathlib

/-!
Verification of the manga-backend catalog and engagement core.

The definitions below are a shallow embedding of the JavaScript services in
`src/services` (chapter.service.js, readingHistory.service.js,
bookmark.service.js, manga.service.js).  The Prisma-backed store is modelled
as an explicit record of entity lists (`DB`); each service function becomes a
pure Lean function from a `DB` (plus its request parameters and a clock value
for `new Date()`) to a result together with the updated `DB`.  A failed
operation returns an `AppError` carrying the same message and HTTP status
code the JavaScript code passes to `new AppError(message, status)`, paired
with the store state at the moment the error is raised.

Machine-level conventions of the embedding:
* entity ids (cuid strings in the original schema) are modelled as `Nat`;
* timestamps (`Date`) are modelled as `Nat` clock values supplied by the
  caller;
* `chapterNumber` (`parseFloat` of the request field, a fractional ordinal)
  is modelled as `Rat`;
* JavaScript `Math.round` (round half towards positive infinity) is
  modelled by `jsRound`;
* `Math.floor(Math.random() * (i + 1))`, a uniform draw from `0..i`, is
  modelled by consuming one `Nat` from a caller-supplied choice list and
  reducing it modulo `i + 1`.
-/

namespace MangaCore

/-- User roles (enum `Role` of the schema; compared as strings in the JS). -/
inductive Role
  | USER
  | UPLOADER
  | ADMIN
  deriving DecidableEq, Repr

/-- Moderation status of a Manga (`approvalStatus`). -/
inductive ApprovalStatus
  | PENDING
  | APPROVED
  | REJECTED
  deriving DecidableEq, Repr

/-- Lifecycle status of a Manga. -/
inductive MangaStatus
  | ONGOING
  | COMPLETED
  | HIATUS
  | CANCELLED
  deriving DecidableEq, Repr

/-- Publish status of a Chapter. -/
inductive ChapterStatus
  | DRAFT
  | PUBLISHED
  deriving DecidableEq, Repr

/-- The `AppError(message, statusCode)` class of error.middleware. -/
structure AppError where
  message : String
  status : Nat
  deriving DecidableEq, Repr

/-- Author (Contributor) row. -/
structure Author where
  id : Nat
  name : String
  slug : String
  deriving DecidableEq, Repr

/-- Genre (Tag) row. -/
structure Genre where
  id : Nat
  name : String
  slug : String
  deriving DecidableEq, Repr

/-- Manga (Title) row with its denormalized aggregate counters. -/
structure Manga where
  id : Nat
  title : String
  slug : String
  alternativeTitles : List String
  description : Option String
  thumbnail : Option String
  coverImage : Option String
  status : MangaStatus
  releaseYear : Option Int
  approvalStatus : ApprovalStatus
  uploaderId : Nat
  totalChapters : Int
  totalViews : Int
  lastChapterAt : Option Nat
  deriving DecidableEq, Repr

/-- Chapter row. -/
structure Chapter where
  id : Nat
  mangaId : Nat
  chapterNumber : Rat
  title : String
  slug : String
  images : List String
  totalImages : Nat
  totalViews : Int
  status : ChapterStatus
  publishedAt : Nat
  deriving DecidableEq, Repr

/-- Manga-to-Author join row. -/
structure MangaAuthor where
  mangaId : Nat
  authorId : Nat
  deriving DecidableEq, Repr

/-- Manga-to-Genre join row. -/
structure MangaGenre where
  mangaId : Nat
  genreId : Nat
  deriving DecidableEq, Repr

/-- Bookmark (EngagementRecord) row. -/
structure Bookmark where
  id : Nat
  userId : Nat
  mangaId : Nat
  createdAt : Nat
  deriving DecidableEq, Repr

/-- ReadingHistory (ProgressRecord) row. -/
structure ReadingHistory where
  id : Nat
  userId : Nat
  mangaId : Nat
  chapterId : Nat
  currentPage : Int
  totalPages : Int
  progressPercent : Int
  isCompleted : Bool
  lastReadAt : Nat
  deriving DecidableEq, Repr

/-- ChapterView audit row. -/
structure ChapterView where
  chapterId : Nat
  userId : Nat
  deriving DecidableEq, Repr

/-- The Prisma-backed store, as explicit entity lists.  The store's
autogenerated unique ids are modelled by `freshMangaId` and friends; its
unique indexes (slug columns, `(userId, mangaId)` on Bookmark,
`(userId, chapterId)` on ReadingHistory) are invariants of the operations
below, not re-checked side conditions. -/
structure DB where
  mangas : List Manga
  chapters : List Chapter
  authors : List Author
  genres : List Genre
  mangaAuthors : List MangaAuthor
  mangaGenres : List MangaGenre
  bookmarks : List Bookmark
  histories : List ReadingHistory
  chapterViews : List ChapterView
  deriving DecidableEq, Repr

/-- Strictly larger than every id in the list: models store id generation. -/
def freshId (ids : List Nat) : Nat := ids.foldr max 0 + 1

/-- Fresh id for a new Manga row. -/
def freshMangaId (db : DB) : Nat := freshId (db.mangas.map Manga.id)

/-- Fresh id for a new Chapter row. -/
def freshChapterId (db : DB) : Nat := freshId (db.chapters.map Chapter.id)

/-- Fresh id for a new Author row. -/
def freshAuthorId (authors : List Author) : Nat := freshId (authors.map Author.id)

/-- Fresh id for a new Genre row. -/
def freshGenreId (genres : List Genre) : Nat := freshId (genres.map Genre.id)

/-- Fresh id for a new Bookmark row. -/
def freshBookmarkId (db : DB) : Nat := freshId (db.bookmarks.map Bookmark.id)

/-- Fresh id for a new ReadingHistory row. -/
def freshHistoryId (db : DB) : Nat := freshId (db.histories.map ReadingHistory.id)

/-- Split a character list on spaces, dropping empty runs. -/
def slugSplit : List Char → List Char → List (List Char)
  | [], acc => if acc = [] then [] else [acc.reverse]
  | c :: rest, acc =>
    if c = ' ' then
      if acc = [] then slugSplit rest [] else acc.reverse :: slugSplit rest []
    else slugSplit rest (c :: acc)

/-- slugify.util.js `createSlug` (the slugify collaborator with `lower` and
`strict` options, per the spec's Slug Generator contract): lower-case, keep
only alphanumerics and whitespace, collapse whitespace runs to a single `-`
separator. -/
def createSlug (text : String) : String :=
  String.intercalate "-"
    ((slugSplit ((text.toList.map Char.toLower).filter
        (fun c => c.isAlphanum ∨ c = ' ')) []).map List.asString)

/-- JavaScript `Math.round`: round half towards positive infinity. -/
def jsRound (q : Rat) : Int := ⌊q + 1/2⌋

/-- Request body of a save-progress call (`currentPage`, `totalPages` are
integers after the route's `isInt` validation; `isCompleted` is optional,
`none` modelling the JavaScript `undefined`, which is falsy). -/
structure ProgressInput where
  currentPage : Int
  totalPages : Int
  isCompleted : Option Bool
  deriving DecidableEq, Repr

/-- readingHistory.service.js `saveProgress(userId, chapterId, progressData)`:
look up the chapter (404 if absent), compute `progressPercent`, upsert the
ReadingHistory row keyed on `(userId, chapterId)`, then increment the
chapter's and the owning manga's `totalViews`.  The Prisma updates target
rows that exist by foreign-key integrity, so they are modelled as in-place
maps; no ChapterView row is written by this function. -/
def saveProgress (db : DB) (userId chapterId : Nat) (input : ProgressInput)
    (now : Nat) : Except AppError ReadingHistory × DB :=
  match db.chapters.find? (fun c => c.id == chapterId) with
  | none => (.error ⟨"Chapter not found", 404⟩, db)
  | some chapter =>
    let progressPercent : Int :=
      if input.totalPages > 0 then
        jsRound ((input.currentPage : Rat) / (input.totalPages : Rat) * 100)
      else 0
    let isCompleted : Bool := input.isCompleted.getD false || progressPercent ≥ 100
    let (history, db1) : ReadingHistory × DB :=
      match db.histories.find? (fun h => h.userId == userId && h.chapterId == chapterId) with
      | some h =>
        let h' : ReadingHistory :=
          { h with
            currentPage := input.currentPage
            totalPages := input.totalPages
            progressPercent := progressPercent
            isCompleted := isCompleted
            lastReadAt := now }
        (h', { db with
          histories := db.histories.map (fun g =>
            if g.userId == userId && g.chapterId == chapterId then
              { g with
                currentPage := input.currentPage
                totalPages := input.totalPages
                progressPercent := progressPercent
                isCompleted := isCompleted
                lastReadAt := now }
            else g) })
      | none =>
        let h' : ReadingHistory :=
          { id := freshHistoryId db
            userId := userId
            mangaId := chapter.mangaId
            chapterId := chapterId
            currentPage := input.currentPage
            totalPages := input.totalPages
            progressPercent := progressPercent
            isCompleted := isCompleted
            lastReadAt := now }
        (h', { db with histories := db.histories ++ [h'] })
    let db2 := { db1 with
      chapters := db1.chapters.map (fun c : Chapter =>
        if c.id == chapterId then { c with totalViews := c.totalViews + 1 } else c) }
    let db3 := { db2 with
      mangas := db2.mangas.map (fun m : Manga =>
        if m.id == chapter.mangaId then { m with totalViews := m.totalViews + 1 } else m) }
    (.ok history, db3)

/-- Request body of a chapter-creation call.  `chapterNumber` is the
`parseFloat` of the request field; `images` is the list of image URLs after
the upload step (or the directly supplied URL list); `title` is optional. -/
structure ChapterInput where
  chapterNumber : Rat
  title : Option String
  images : List String
  deriving DecidableEq, Repr

/-- The Chapter row persisted by a successful `createChapter`: fresh id,
`PUBLISHED`, slug derived from `{mangaSlug}-ch-{ordinal}`, `totalImages`
equal to the image count. -/
def newChapter (db : DB) (mangaId : Nat) (input : ChapterInput)
    (manga : Manga) (now : Nat) : Chapter :=
  { id := freshChapterId db
    mangaId := mangaId
    chapterNumber := input.chapterNumber
    title := input.title.getD ("Chapter " ++ toString input.chapterNumber)
    slug := createSlug (manga.slug ++ "-ch-" ++ toString input.chapterNumber)
    images := input.images
    totalImages := input.images.length
    totalViews := 0
    status := ChapterStatus.PUBLISHED
    publishedAt := now }

/-- chapter.service.js `createChapter(mangaId, chapterData, files, userId,
userRole)`: 404 if the manga is absent, 403 unless the caller owns it or is
ADMIN, 400 if a chapter with the same ordinal exists under the manga, 400 if
no images were provided; otherwise insert the chapter (PUBLISHED, published
now) and then increment the manga's `totalChapters` and set its
`lastChapterAt`. -/
def createChapter (db : DB) (mangaId : Nat) (input : ChapterInput)
    (userId : Nat) (userRole : Role) (now : Nat) : Except AppError Chapter × DB :=
  match db.mangas.find? (fun m => m.id == mangaId) with
  | none => (.error ⟨"Manga not found", 404⟩, db)
  | some manga =>
    if manga.uploaderId ≠ userId ∧ userRole ≠ Role.ADMIN then
      (.error ⟨"Not authorized to add chapters to this manga", 403⟩, db)
    else if (db.chapters.find? (fun c =>
        c.mangaId == mangaId && c.chapterNumber == input.chapterNumber)).isSome then
      (.error ⟨"Chapter number already exists", 400⟩, db)
    else if input.images.length = 0 then
      (.error ⟨"No images provided", 400⟩, db)
    else
      let chapter : Chapter := newChapter db mangaId input manga now
      let db1 := { db with chapters := db.chapters ++ [chapter] }
      let db2 := { db1 with
        mangas := db1.mangas.map (fun m : Manga =>
          if m.id == mangaId then
            { m with totalChapters := m.totalChapters + 1, lastChapterAt := some now }
          else m) }
      (.ok chapter, db2)

/-- chapter.service.js `deleteChapter(chapterId, userId, userRole)`: look up
the chapter with its owning manga (included in the same find, so before any
write), 404 if absent, 403 unless the caller owns the manga or is ADMIN;
then delete the chapter and decrement the manga's `totalChapters`.  A
chapter whose owning manga is missing would make the JavaScript dereference
`chapter.manga.uploaderId` crash; foreign-key integrity rules that state
out, and the model surfaces it as a 500 with the store untouched. -/
def deleteChapter (db : DB) (chapterId userId : Nat) (userRole : Role) :
    Except AppError Unit × DB :=
  match db.chapters.find? (fun c => c.id == chapterId) with
  | none => (.error ⟨"Chapter not found", 404⟩, db)
  | some chapter =>
    match db.mangas.find? (fun m => m.id == chapter.mangaId) with
    | none => (.error ⟨"Internal error", 500⟩, db)
    | some manga =>
      if manga.uploaderId ≠ userId ∧ userRole ≠ Role.ADMIN then
        (.error ⟨"Not authorized to delete this chapter", 403⟩, db)
      else
        let db1 := { db with chapters := db.chapters.filter (fun c => ¬ c.id == chapterId) }
        let db2 := { db1 with
          mangas := db1.mangas.map (fun m : Manga =>
            if m.id == chapter.mangaId then
              { m with totalChapters := m.totalChapters - 1 }
            else m) }
        (.ok (), db2)

/-- chapter.service.js `incrementChapterViews(chapterId, mangaId, userId)`:
increment the chapter's and the manga's `totalViews`, and insert a
ChapterView audit row only when a logged-in user id was supplied. -/
def incrementChapterViews (db : DB) (chapterId mangaId : Nat)
    (userId : Option Nat) : DB :=
  let db1 := { db with
    chapters := db.chapters.map (fun c : Chapter =>
      if c.id == chapterId then { c with totalViews := c.totalViews + 1 } else c) }
  let db2 := { db1 with
    mangas := db1.mangas.map (fun m : Manga =>
      if m.id == mangaId then { m with totalViews := m.totalViews + 1 } else m) }
  match userId with
  | some uid => { db2 with chapterViews := db2.chapterViews ++ [⟨chapterId, uid⟩] }
  | none => db2

/-- Request body of a manga-creation call, after the JSON-string fields have
been parsed into lists (the service's `JSON.parse` branches). -/
structure MangaInput where
  title : String
  alternativeTitles : List String
  description : Option String
  status : Option MangaStatus
  releaseYear : Option Int
  authorNames : List String
  genreNames : List String
  thumbnail : Option String
  coverImage : Option String
  deriving DecidableEq, Repr

/-- Prisma `connectOrCreate` keyed on the unique author name: reuse the
existing row's id, or append a new row with a derived slug. -/
def connectOrCreateAuthor (authors : List Author) (name : String) :
    List Author × Nat :=
  match authors.find? (fun a => a.name == name) with
  | some a => (authors, a.id)
  | none =>
    let a : Author := { id := freshAuthorId authors, name := name, slug := createSlug name }
    (authors ++ [a], a.id)

/-- Prisma `connectOrCreate` keyed on the unique genre name. -/
def connectOrCreateGenre (genres : List Genre) (name : String) :
    List Genre × Nat :=
  match genres.find? (fun g => g.name == name) with
  | some g => (genres, g.id)
  | none =>
    let g : Genre := { id := freshGenreId genres, name := name, slug := createSlug name }
    (genres ++ [g], g.id)

/-- Fold `connectOrCreateAuthor` over the requested names, collecting the
linked ids in order. -/
def connectOrCreateAuthors (authors : List Author) (names : List String) :
    List Author × List Nat :=
  match names with
  | [] => (authors, [])
  | n :: rest =>
    let (authors1, aid) := connectOrCreateAuthor authors n
    let (authors2, ids) := connectOrCreateAuthors authors1 rest
    (authors2, aid :: ids)

/-- Fold `connectOrCreateGenre` over the requested names. -/
def connectOrCreateGenres (genres : List Genre) (names : List String) :
    List Genre × List Nat :=
  match names with
  | [] => (genres, [])
  | n :: rest =>
    let (genres1, gid) := connectOrCreateGenre genres n
    let (genres2, ids) := connectOrCreateGenres genres1 rest
    (genres2, gid :: ids)

/-- The Manga row persisted by `createManga` for a given store state and
request: slug derived from the title, moderation status APPROVED only for
ADMIN callers, counters zeroed.  The source performs no validation of the
title (in particular an empty title is accepted as-is). -/
def newManga (db : DB) (input : MangaInput) (userId : Nat) (userRole : Role) : Manga :=
  { id := freshMangaId db
    title := input.title
    slug := createSlug input.title
    alternativeTitles := input.alternativeTitles
    description := input.description
    thumbnail := input.thumbnail
    coverImage := input.coverImage
    status := input.status.getD MangaStatus.ONGOING
    releaseYear := input.releaseYear
    approvalStatus := if userRole = Role.ADMIN then ApprovalStatus.APPROVED
      else ApprovalStatus.PENDING
    uploaderId := userId
    totalChapters := 0
    totalViews := 0
    lastChapterAt := none }

/-- manga.service.js `createManga(mangaData, files, userId, userRole)`:
derive the slug, `connectOrCreate` every requested author and genre by
unique name, and insert the Manga row together with its join rows.  The
store's unique-slug index (declared in the schema, which only its callers
appear in the sources) is not re-modelled here; no claim depends on it. -/
def createManga (db : DB) (input : MangaInput) (userId : Nat) (userRole : Role) :
    Except AppError Manga × DB :=
  let withAuthors := connectOrCreateAuthors db.authors input.authorNames
  let withGenres := connectOrCreateGenres db.genres input.genreNames
  let manga := newManga db input userId userRole
  let db1 := { db with
    mangas := db.mangas ++ [manga]
    authors := withAuthors.1
    genres := withGenres.1
    mangaAuthors := db.mangaAuthors ++ withAuthors.2.map (fun aid => ⟨manga.id, aid⟩)
    mangaGenres := db.mangaGenres ++ withGenres.2.map (fun gid => ⟨manga.id, gid⟩) }
  (.ok manga, db1)

/-- Update payload of an `updateManga` call: the modelled updatable columns,
`none` meaning the field is absent from the request body. -/
structure MangaUpdate where
  title : Option String
  alternativeTitles : Option (List String)
  description : Option String
  status : Option MangaStatus
  releaseYear : Option Int
  thumbnail : Option String
  coverImage : Option String
  deriving DecidableEq, Repr

/-- Apply an update payload to a Manga row (Prisma `update` data). -/
def applyMangaUpdate (m : Manga) (u : MangaUpdate) : Manga :=
  { m with
    title := u.title.getD m.title
    alternativeTitles := u.alternativeTitles.getD m.alternativeTitles
    description := match u.description with | some d => some d | none => m.description
    status := u.status.getD m.status
    releaseYear := match u.releaseYear with | some y => some y | none => m.releaseYear
    thumbnail := match u.thumbnail with | some t => some t | none => m.thumbnail
    coverImage := match u.coverImage with | some c => some c | none => m.coverImage }

/-- manga.service.js `updateManga(mangaId, updateData, userId, userRole)`:
404 if the manga is absent, 403 unless the caller owns it or is ADMIN,
otherwise apply the update in place and return the updated row. -/
def updateManga (db : DB) (mangaId : Nat) (upd : MangaUpdate)
    (userId : Nat) (userRole : Role) : Except AppError Manga × DB :=
  match db.mangas.find? (fun m => m.id == mangaId) with
  | none => (.error ⟨"Manga not found", 404⟩, db)
  | some manga =>
    if manga.uploaderId ≠ userId ∧ userRole ≠ Role.ADMIN then
      (.error ⟨"Not authorized to update this manga", 403⟩, db)
    else
      let updated := applyMangaUpdate manga upd
      (.ok updated,
        { db with
          mangas := db.mangas.map (fun m : Manga =>
            if m.id == mangaId then applyMangaUpdate m upd else m) })

/-- manga.service.js `deleteManga(mangaId, userId, userRole)`: 404 if the
manga is absent, 403 unless the caller owns it or is ADMIN, otherwise delete
the row. -/
def deleteManga (db : DB) (mangaId userId : Nat) (userRole : Role) :
    Except AppError Unit × DB :=
  match db.mangas.find? (fun m => m.id == mangaId) with
  | none => (.error ⟨"Manga not found", 404⟩, db)
  | some manga =>
    if manga.uploaderId ≠ userId ∧ userRole ≠ Role.ADMIN then
      (.error ⟨"Not authorized to delete this manga", 403⟩, db)
    else
      (.ok (), { db with mangas := db.mangas.filter (fun m => ¬ m.id == mangaId) })

/-- bookmark.service.js `checkBookmark(userId, mangaId)`: whether a bookmark
row exists for the pair, and its id if so. -/
def checkBookmark (db : DB) (userId mangaId : Nat) : Bool × Option Nat :=
  match db.bookmarks.find? (fun b => b.userId == userId && b.mangaId == mangaId) with
  | some b => (true, some b.id)
  | none => (false, none)

/-- Result value of a toggle call (`action`, `isBookmarked`). -/
structure ToggleResult where
  action : String
  isBookmarked : Bool
  deriving DecidableEq, Repr

/-- bookmark.service.js `toggleBookmark(userId, mangaId)`: 404 if the manga
is absent; then a check-then-act pair — delete the `(userId, mangaId)` row
if one exists, insert one otherwise. -/
def toggleBookmark (db : DB) (userId mangaId : Nat) (now : Nat) :
    Except AppError ToggleResult × DB :=
  match db.mangas.find? (fun m => m.id == mangaId) with
  | none => (.error ⟨"Manga not found", 404⟩, db)
  | some _ =>
    match db.bookmarks.find? (fun b => b.userId == userId && b.mangaId == mangaId) with
    | some _ =>
      (.ok ⟨"removed", false⟩,
        { db with bookmarks := db.bookmarks.filter (fun b =>
            ¬ (b.userId == userId && b.mangaId == mangaId)) })
    | none =>
      (.ok ⟨"added", true⟩,
        { db with bookmarks := db.bookmarks ++
            [⟨freshBookmarkId db, userId, mangaId, now⟩] })

/-- Keep the first row per distinct `mangaId`, preserving order: Prisma's
`distinct: [mangaId]` applied to an ordered result set. -/
def dedupByMangaId : List ReadingHistory → List ReadingHistory
  | [] => []
  | h :: t => h :: dedupByMangaId (t.filter (fun g => ¬ g.mangaId == h.mangaId))
termination_by l => l.length
decreasing_by
  exact Nat.lt_succ_of_le (List.length_filter_le _ _)

/-- readingHistory.service.js `getContinueReading(userId, limit)`: the
user's rows ordered by `lastReadAt` descending, reduced to one row per
distinct `mangaId`, truncated to `limit`. -/
def getContinueReading (db : DB) (userId : Nat) (limit : Nat) :
    List ReadingHistory :=
  let sorted := (db.histories.filter (fun h => h.userId == userId)).mergeSort
    (fun a b => decide (b.lastReadAt ≤ a.lastReadAt))
  (dedupByMangaId sorted).take limit

/-- Swap the entries at positions `i` and `j` (the JavaScript array
destructuring `[a[i], a[j]] = [a[j], a[i]]`); out-of-range positions leave
the list unchanged. -/
def listSwap {α : Type} (l : List α) (i j : Nat) : List α :=
  match l[i]?, l[j]? with
  | some a, some b => (l.set i b).set j a
  | _, _ => l

/-- The Fisher-Yates loop `for (i = n-1; i > 0; i--)`: each iteration draws
`j = Math.floor(Math.random() * (i + 1))`, modelled by reducing the next
caller-supplied choice modulo `i + 1`, and swaps positions `i` and `j`. -/
def fyLoop {α : Type} : List α → List Nat → Nat → List α
  | l, [], _ => l
  | l, c :: rest, i => fyLoop (listSwap l i (c % (i + 1))) rest (i - 1)

/-- manga.service.js shuffle step of `getRandomManga`: run the loop from the
last index down, consuming one random choice per iteration (the source
iterates `length - 1` times, one per entry of a valid choice list). -/
def fisherYates {α : Type} (l : List α) (cs : List Nat) : List α :=
  fyLoop l cs (l.length - 1)

/-- All valid choice lists for a loop starting at index `i`: one entry in
`0..i` for the first iteration, then recursively the choices for `i - 1`.
`allCs i` has `(i + 1)!` elements, one per possible sequence of uniform
draws. -/
def allCs : Nat → List (List Nat)
  | 0 => [[]]
  | i + 1 => (List.range (i + 2)).flatMap (fun j => (allCs i).map (j :: ·))

/-- The ids eligible for random sampling: all APPROVED mangas. -/
def approvedIds (db : DB) : List Nat :=
  (db.mangas.filter (fun m => m.approvalStatus == ApprovalStatus.APPROVED)).map Manga.id

/-- The id prefix selected by one `getRandomManga` call. -/
def randomSelectedIds (db : DB) (limit : Nat) (cs : List Nat) : List Nat :=
  (fisherYates (approvedIds db) cs).take limit

/-- manga.service.js `getRandomManga(limit)`: shuffle all APPROVED manga ids
with Fisher-Yates, take the first `limit`, and fetch the rows whose id is in
that set (`findMany` with `id: { in: selectedIds }` returns rows in store
order). -/
def getRandomManga (db : DB) (limit : Nat) (cs : List Nat) : List Manga :=
  let selectedIds := randomSelectedIds db limit cs
  db.mangas.filter (fun m => selectedIds.contains m.id)

/-- A chapter-level mutation, for sequences of catalog operations. -/
inductive ChapterOp
  | create (mangaId : Nat) (input : ChapterInput) (userId : Nat)
      (userRole : Role) (now : Nat)
  | delete (chapterId userId : Nat) (userRole : Role)

/-- Apply one chapter operation; a failed operation leaves the store as the
service left it (both services raise before their first write). -/
def applyChapterOp (db : DB) : ChapterOp → DB
  | ChapterOp.create mangaId input userId userRole now =>
    (createChapter db mangaId input userId userRole now).2
  | ChapterOp.delete chapterId userId userRole =>
    (deleteChapter db chapterId userId userRole).2

/-- Apply a sequence of chapter operations in order. -/
def applyChapterOps (db : DB) : List ChapterOp → DB
  | [] => db
  | op :: rest => applyChapterOps (applyChapterOp db op) rest

/-- Store well-formedness: ids are unique per table (the store's primary
keys). -/
def idsNodup (db : DB) : Prop :=
  (db.mangas.map Manga.id).Nodup ∧ (db.chapters.map Chapter.id).Nodup

/-- The chapter-count invariant: every manga's `totalChapters` counter
equals the number of chapter rows that reference it. -/
def chapterCountInv (db : DB) : Prop :=
  ∀ m ∈ db.mangas,
    m.totalChapters = ((db.chapters.filter (fun c => c.mangaId == m.id)).length : Int)

/-! Concrete store states used to instantiate the theorems below. -/

/-- A sample approved manga owned by uploader 3. -/
def wManga : Manga :=
  { id := 1, title := "One", slug := "one", alternativeTitles := [],
    description := none, thumbnail := none, coverImage := none,
    status := MangaStatus.ONGOING, releaseYear := none,
    approvalStatus := ApprovalStatus.APPROVED, uploaderId := 3,
    totalChapters := 1, totalViews := 0, lastChapterAt := some 1 }

/-- A sample published chapter of `wManga`. -/
def wChapter : Chapter :=
  { id := 10, mangaId := 1, chapterNumber := 1, title := "Ch 1",
    slug := "one-ch-1", images := ["u"], totalImages := 1, totalViews := 0,
    status := ChapterStatus.PUBLISHED, publishedAt := 1 }

/-- A sample store holding `wManga` and `wChapter` and nothing else. -/
def wDB : DB :=
  { mangas := [wManga], chapters := [wChapter], authors := [], genres := [],
    mangaAuthors := [], mangaGenres := [], bookmarks := [], histories := [],
    chapterViews := [] }

/-- The ReadingHistory row produced by `saveProgress` on `wDB` for user 7,
chapter 10, position 15 of 25 at clock 5. -/
def wHistory : ReadingHistory :=
  { id := 1, userId := 7, mangaId := 1, chapterId := 10, currentPage := 15,
    totalPages := 25, progressPercent := 60, isCompleted := false,
    lastReadAt := 5 }

/-- The ReadingHistory row produced by `saveProgress` on `wDB` for user 7,
chapter 10, position 25 of 25 at clock 5. -/
def wHistoryDone : ReadingHistory :=
  { id := 1, userId := 7, mangaId := 1, chapterId := 10, currentPage := 25,
    totalPages := 25, progressPercent := 100, isCompleted := true,
    lastReadAt := 5 }

/-- C10: a `saveProgress` call whose `chapterId` references no existing
chapter fails with the 404 "Chapter not found" error before any write: the
store is returned unchanged, so no ProgressRecord and no view counter is
touched. -/
theorem saveProgress_chapter_not_found (db : DB) (userId chapterId : Nat)
    (input : ProgressInput) (now : Nat)
    (hnone : db.chapters.find? (fun c => c.id == chapterId) = none) :
    saveProgress db userId chapterId input now =
      (Except.error ⟨"Chapter not found", 404⟩, db) := by
  unfold saveProgress
  rw [hnone]

/-- Witness for C10 at a concrete store: chapter 99 does not exist in `wDB`. -/
theorem saveProgress_chapter_not_found_witness :
    saveProgress wDB 7 99 ⟨1, 1, none⟩ 5 =
      (Except.error ⟨"Chapter not found", 404⟩, wDB) :=
  saveProgress_chapter_not_found wDB 7 99 ⟨1, 1, none⟩ 5 rfl

/-- C2: a successful `saveProgress` stores
`progressPercent = round(100 * currentPosition / totalPositions)` when
`totalPositions > 0` and `0` when `totalPositions = 0`, and stores
`isComplete = true` whenever the computed percentage reaches 100, even when
the caller did not pass `isCompleted`. -/
theorem saveProgress_progressPercent (db : DB) (userId chapterId : Nat)
    (input : ProgressInput) (now : Nat) (h : ReadingHistory)
    (hok : (saveProgress db userId chapterId input now).1 = Except.ok h) :
    (input.totalPages > 0 →
      h.progressPercent =
        jsRound (100 * (input.currentPage : Rat) / (input.totalPages : Rat))) ∧
    (input.totalPages = 0 → h.progressPercent = 0) ∧
    (h.progressPercent ≥ 100 → h.isCompleted = true) := by
  have harith : ∀ cp tp : Int, (cp : Rat) / (tp : Rat) * 100 = 100 * (cp : Rat) / (tp : Rat) := by
    intro cp tp
    ring
  unfold saveProgress at hok
  cases hfind : db.chapters.find? (fun c => c.id == chapterId) with
  | none =>
    rw [hfind] at hok
    simp at hok
  | some chapter =>
    rw [hfind] at hok
    cases hh : db.histories.find? (fun g => g.userId == userId && g.chapterId == chapterId) with
    | none =>
      rw [hh] at hok
      simp only [Except.ok.injEq] at hok
      subst hok
      refine ⟨fun ht => ?_, fun ht => ?_, fun hp => ?_⟩
      · simp [ht, harith]
      · simp [ht]
      · simp only [Bool.or_eq_true, decide_eq_true_eq]
        right
        simpa using hp
    | some prev =>
      rw [hh] at hok
      simp only [Except.ok.injEq] at hok
      subst hok
      refine ⟨fun ht => ?_, fun ht => ?_, fun hp => ?_⟩
      · simp [ht, harith]
      · simp [ht]
      · simp only [Bool.or_eq_true, decide_eq_true_eq]
        right
        simpa using hp

/-- Witness for C2: on `wDB`, saving position 15 of 25 stores percent 60
(= round(100·15/25)) with `isComplete = false`, and saving position 25 of 25
stores percent 100 with `isComplete = true` although the caller passed no
`isCompleted` flag. -/
theorem saveProgress_progressPercent_witness :
    wHistory.progressPercent =
      jsRound (100 * ((15 : Int) : Rat) / ((25 : Int) : Rat)) ∧
    wHistoryDone.isCompleted = true := by
  constructor
  · have h1 : (saveProgress wDB 7 10 ⟨15, 25, none⟩ 5).1 = Except.ok wHistory := by
      simp [saveProgress, wDB, wChapter, wHistory, freshHistoryId, freshId]
      norm_num [jsRound]
    exact (saveProgress_progressPercent wDB 7 10 ⟨15, 25, none⟩ 5 wHistory h1).1 (by norm_num)
  · have h2 : (saveProgress wDB 7 10 ⟨25, 25, none⟩ 5).1 = Except.ok wHistoryDone := by
      simp [saveProgress, wDB, wChapter, wHistoryDone, freshHistoryId, freshId]
      norm_num [jsRound]
    exact (saveProgress_progressPercent wDB 7 10 ⟨25, 25, none⟩ 5 wHistoryDone h2).2.2
      (by norm_num [wHistoryDone])

/-- C3: a `createChapter` call for an ordinal that already exists under the
same manga fails with the conflict error (`AppError` 400, the spec's
`ConflictError` class) and returns the store unchanged, so the owning
manga's `totalChapters` and all other state are untouched. -/
theorem createChapter_duplicate_ordinal (db : DB) (mangaId : Nat)
    (input : ChapterInput) (userId : Nat) (userRole : Role) (now : Nat)
    (manga : Manga) (hm : db.mangas.find? (fun m => m.id == mangaId) = some manga)
    (hauth : manga.uploaderId = userId ∨ userRole = Role.ADMIN)
    (hdup : ∃ c ∈ db.chapters, c.mangaId = mangaId ∧
      c.chapterNumber = input.chapterNumber) :
    createChapter db mangaId input userId userRole now =
      (Except.error ⟨"Chapter number already exists", 400⟩, db) := by
  unfold createChapter
  rw [hm]
  have hcond : ¬(manga.uploaderId ≠ userId ∧ userRole ≠ Role.ADMIN) := by
    tauto
  dsimp only
  rw [if_neg hcond]
  have hsome : (db.chapters.find? (fun c =>
      c.mangaId == mangaId && c.chapterNumber == input.chapterNumber)).isSome = true := by
    rw [List.find?_isSome]
    obtain ⟨c, hc, h1, h2⟩ := hdup
    exact ⟨c, hc, by simp [h1, h2]⟩
  rw [if_pos hsome]

/-- Witness for C3: `wDB` already holds chapter ordinal 1 under manga 1, so
its owner (uploader 3) cannot create another chapter 1, and `wDB` is
returned unchanged. -/
theorem createChapter_duplicate_ordinal_witness :
    createChapter wDB 1 ⟨1, none, ["x"]⟩ 3 Role.UPLOADER 9 =
      (Except.error ⟨"Chapter number already exists", 400⟩, wDB) :=
  createChapter_duplicate_ordinal wDB 1 ⟨1, none, ["x"]⟩ 3 Role.UPLOADER 9
    wManga rfl (Or.inl rfl) ⟨wChapter, by simp [wDB], rfl, rfl⟩

/-- A store with no rows at all. -/
def emptyDB : DB :=
  { mangas := [], chapters := [], authors := [], genres := [],
    mangaAuthors := [], mangaGenres := [], bookmarks := [], histories := [],
    chapterViews := [] }

/-- A manga-creation request whose title is the empty string. -/
def emptyTitleInput : MangaInput :=
  { title := "", alternativeTitles := [], description := none, status := none,
    releaseYear := none, authorNames := [], genreNames := [],
    thumbnail := none, coverImage := none }

/-- Counterexample to C9: creating a manga with an empty title name does not
fail — the call returns ok and persists a Manga row whose title is the empty
string (the service performs no validation of the title). -/
theorem createManga_empty_title_counterexample :
    (createManga emptyDB emptyTitleInput 7 Role.UPLOADER).1.isOk = true ∧
    ((createManga emptyDB emptyTitleInput 7 Role.UPLOADER).2.mangas.map
      Manga.title) = [""] := by
  exact ⟨rfl, rfl⟩

/-- C9 (amended): a Title-creation request whose title name is empty is not
rejected: `createManga` performs no validation of the name, succeeds, and
persists the row (with the empty name and its derived slug) to the store. -/
theorem createManga_empty_title_persists (db : DB) (input : MangaInput)
    (userId : Nat) (userRole : Role) (hempty : input.title = "") :
    (createManga db input userId userRole).1 =
      Except.ok (newManga db input userId userRole) ∧
    (createManga db input userId userRole).2.mangas =
      db.mangas ++ [newManga db input userId userRole] := by
  exact ⟨rfl, rfl⟩

/-- Witness for C9 (amended) on the empty store. -/
theorem createManga_empty_title_persists_witness :
    (createManga emptyDB emptyTitleInput 7 Role.UPLOADER).1 =
      Except.ok (newManga emptyDB emptyTitleInput 7 Role.UPLOADER) ∧
    (createManga emptyDB emptyTitleInput 7 Role.UPLOADER).2.mangas =
      emptyDB.mangas ++ [newManga emptyDB emptyTitleInput 7 Role.UPLOADER] :=
  createManga_empty_title_persists emptyDB emptyTitleInput 7 Role.UPLOADER rfl

/-- Counterexample to C8: a successful `saveProgress` by the authenticated
user 7 does not insert a ChapterView audit row — the store's `chapterViews`
table is exactly as before the call. -/
theorem saveProgress_no_chapterView_counterexample :
    (saveProgress wDB 7 10 ⟨15, 25, none⟩ 5).1.isOk = true ∧
    (saveProgress wDB 7 10 ⟨15, 25, none⟩ 5).2.chapterViews = [] := by
  exact ⟨rfl, rfl⟩

/-- Searching a mapped list with a predicate the map preserves finds the
image of the original hit. -/
theorem find?_map_of_pred {α : Type} (l : List α) (p : α → Bool) (f : α → α)
    (hf : ∀ a, p (f a) = p a) :
    (l.map f).find? p = (l.find? p).map f := by
  induction l with
  | nil => rfl
  | cons a t ih =>
    cases hpa : p a with
    | true => simp [List.find?_cons, hf, hpa]
    | false => simp [List.find?_cons, hf, hpa, ih]

/-- C8 (amended): every successful `saveProgress` increments the chapter's
`totalViews` by exactly 1 and the owning manga's `totalViews` by exactly 1,
but inserts no ChapterView audit row — the `chapterViews` table is returned
exactly as it was (the audit insert lives only in `incrementChapterViews`,
which `saveProgress` does not call). -/
theorem saveProgress_view_increments (db : DB) (userId chapterId : Nat)
    (input : ProgressInput) (now : Nat) (chapter : Chapter) (m : Manga)
    (hc : db.chapters.find? (fun c => c.id == chapterId) = some chapter)
    (hm : db.mangas.find? (fun mm => mm.id == chapter.mangaId) = some m) :
    (saveProgress db userId chapterId input now).1.isOk = true ∧
    (saveProgress db userId chapterId input now).2.chapters.find?
        (fun c => c.id == chapterId) =
      some { chapter with totalViews := chapter.totalViews + 1 } ∧
    (saveProgress db userId chapterId input now).2.mangas.find?
        (fun mm => mm.id == chapter.mangaId) =
      some { m with totalViews := m.totalViews + 1 } ∧
    (saveProgress db userId chapterId input now).2.chapterViews =
      db.chapterViews := by
  have hcid : chapter.id = chapterId := by
    simpa using List.find?_some hc
  have hmid : m.id = chapter.mangaId := by
    simpa using List.find?_some hm
  unfold saveProgress
  rw [hc]
  cases hh : db.histories.find? (fun g => g.userId == userId && g.chapterId == chapterId) with
  | none =>
    refine ⟨rfl, ?_, ?_, rfl⟩
    · rw [find?_map_of_pred _ _ _ (by intro a; by_cases h : a.id == chapterId <;> simp [h]), hc]
      simp [hcid]
    · rw [find?_map_of_pred _ _ _ (by intro a; by_cases h : a.id == chapter.mangaId <;> simp [h]), hm]
      simp [hmid]
  | some prev =>
    refine ⟨rfl, ?_, ?_, rfl⟩
    · rw [find?_map_of_pred _ _ _ (by intro a; by_cases h : a.id == chapterId <;> simp [h]), hc]
      simp [hcid]
    · rw [find?_map_of_pred _ _ _ (by intro a; by_cases h : a.id == chapter.mangaId <;> simp [h]), hm]
      simp [hmid]

/-- Witness for C8 (amended): on `wDB`, user 7 saving progress on chapter 10
bumps chapter 10 and manga 1 to one view each, with no audit row. -/
theorem saveProgress_view_increments_witness :
    (saveProgress wDB 7 10 ⟨15, 25, none⟩ 5).2.chapters.find?
        (fun c => c.id == 10) =
      some { wChapter with totalViews := wChapter.totalViews + 1 } ∧
    (saveProgress wDB 7 10 ⟨15, 25, none⟩ 5).2.chapterViews = [] :=
  ⟨(saveProgress_view_increments wDB 7 10 ⟨15, 25, none⟩ 5 wChapter wManga rfl rfl).2.1,
    (saveProgress_view_increments wDB 7 10 ⟨15, 25, none⟩ 5 wChapter wManga rfl rfl).2.2.2⟩

/-- C4: a mutation on a Title or Chapter (here `updateManga` on an existing
manga and `deleteChapter` on an existing chapter) succeeds if and only if
the principal's role is ADMIN or the principal is the resource's owner
(`uploaderId` of the manga, or of the chapter's owning manga); in the
forbidden case it fails with the 403 error and the store — hence the
resource — is returned unchanged. -/
theorem mutation_ownership_gate (db : DB) (mangaId : Nat) (upd : MangaUpdate)
    (userId : Nat) (userRole : Role) (chapterId userId2 : Nat) (role2 : Role)
    (manga : Manga) (hm : db.mangas.find? (fun m => m.id == mangaId) = some manga)
    (chapter : Chapter)
    (hc : db.chapters.find? (fun c => c.id == chapterId) = some chapter)
    (owner : Manga)
    (ho : db.mangas.find? (fun m => m.id == chapter.mangaId) = some owner) :
    (((updateManga db mangaId upd userId userRole).1.isOk = true) ↔
      (userRole = Role.ADMIN ∨ manga.uploaderId = userId)) ∧
    (¬(userRole = Role.ADMIN ∨ manga.uploaderId = userId) →
      updateManga db mangaId upd userId userRole =
        (Except.error ⟨"Not authorized to update this manga", 403⟩, db)) ∧
    (((deleteChapter db chapterId userId2 role2).1.isOk = true) ↔
      (role2 = Role.ADMIN ∨ owner.uploaderId = userId2)) ∧
    (¬(role2 = Role.ADMIN ∨ owner.uploaderId = userId2) →
      deleteChapter db chapterId userId2 role2 =
        (Except.error ⟨"Not authorized to delete this chapter", 403⟩, db)) := by
  unfold updateManga deleteChapter
  rw [hm, hc]
  dsimp only
  rw [ho]
  dsimp only
  by_cases hden : manga.uploaderId ≠ userId ∧ userRole ≠ Role.ADMIN
  · by_cases hden2 : owner.uploaderId ≠ userId2 ∧ role2 ≠ Role.ADMIN
    · rw [if_pos hden, if_pos hden2]
      refine ⟨?_, fun _ => rfl, ?_, fun _ => rfl⟩ <;> simp [Except.isOk] <;> tauto
    · rw [if_pos hden, if_neg hden2]
      refine ⟨?_, fun _ => rfl, ?_, fun hforb => ?_⟩
      · simp [Except.isOk]
        tauto
      · simp [Except.isOk]
        tauto
      · exact absurd (by tauto : ¬(owner.uploaderId ≠ userId2 ∧ role2 ≠ Role.ADMIN)) (by tauto)
  · by_cases hden2 : owner.uploaderId ≠ userId2 ∧ role2 ≠ Role.ADMIN
    · rw [if_neg hden, if_pos hden2]
      refine ⟨?_, fun hforb => ?_, ?_, fun _ => rfl⟩
      · simp [Except.isOk]
        tauto
      · exact absurd (by tauto : ¬(manga.uploaderId ≠ userId ∧ userRole ≠ Role.ADMIN)) (by tauto)
      · simp [Except.isOk]
        tauto
    · rw [if_neg hden, if_neg hden2]
      refine ⟨?_, fun hforb => ?_, ?_, fun hforb2 => ?_⟩
      · simp [Except.isOk]
        tauto
      · exact absurd (by tauto : ¬(manga.uploaderId ≠ userId ∧ userRole ≠ Role.ADMIN)) (by tauto)
      · simp [Except.isOk]
        tauto
      · exact absurd (by tauto : ¬(owner.uploaderId ≠ userId2 ∧ role2 ≠ Role.ADMIN)) (by tauto)

/-- An update payload that touches no column. -/
def wUpdate : MangaUpdate :=
  { title := none, alternativeTitles := none, description := none,
    status := none, releaseYear := none, thumbnail := none, coverImage := none }

/-- Witness for C4 on `wDB`: user 4 with role USER is neither ADMIN nor the
owner (uploader 3), so updating manga 1 and deleting chapter 10 both fail
with 403 and leave the store unchanged. -/
theorem mutation_ownership_gate_witness :
    updateManga wDB 1 wUpdate 4 Role.USER =
      (Except.error ⟨"Not authorized to update this manga", 403⟩, wDB) ∧
    deleteChapter wDB 10 4 Role.USER =
      (Except.error ⟨"Not authorized to delete this chapter", 403⟩, wDB) :=
  ⟨(mutation_ownership_gate wDB 1 wUpdate 4 Role.USER 10 4 Role.USER wManga rfl
      wChapter rfl wManga rfl).2.1 (by decide),
    (mutation_ownership_gate wDB 1 wUpdate 4 Role.USER 10 4 Role.USER wManga rfl
      wChapter rfl wManga rfl).2.2.2 (by decide)⟩

/-- Searching for a match of `p` after filtering the matches out finds
nothing. -/
theorem find?_filter_neg {α : Type} (l : List α) (p : α → Bool) :
    (l.filter (fun a => ¬ p a)).find? p = none := by
  rw [List.find?_eq_none]
  intro x hx
  have := (List.mem_filter.mp hx).2
  simpa using this

/-- Appending a matching element to a list with no match makes it the first
match. -/
theorem find?_append_singleton_of_none {α : Type} (l : List α) (p : α → Bool)
    (a : α) (hl : l.find? p = none) (ha : p a = true) :
    (l ++ [a]).find? p = some a := by
  rw [List.find?_append, hl]
  simp [ha]

/-- Filtering out the matches of `p` from `l ++ [a]` where `l` has none and
`a` is one returns `l`. -/
theorem filter_append_singleton_none {α : Type} (l : List α) (p : α → Bool)
    (a : α) (hl : l.find? p = none) (ha : p a = true) :
    (l ++ [a]).filter (fun x => ¬ p x) = l := by
  rw [List.filter_append]
  have h1 : l.filter (fun x => ¬ p x) = l := by
    rw [List.filter_eq_self]
    intro x hx
    have := List.find?_eq_none.mp hl x hx
    simpa using this
  have h2 : [a].filter (fun x => ¬ p x) = [] := by
    simp [ha]
  rw [h1, h2, List.append_nil]

/-- C5: on an existing manga, calling `toggleBookmark` twice in immediate
succession (single-threaded) returns the bookmark state for the
`(user, manga)` pair to what it was before the first call: the first call
inserts if no row exists (or deletes if one exists) and the second performs
the inverse operation. -/
theorem toggleBookmark_twice_restores (db : DB) (userId mangaId now1 now2 : Nat)
    (manga : Manga) (hm : db.mangas.find? (fun m => m.id == mangaId) = some manga) :
    (checkBookmark
      (toggleBookmark (toggleBookmark db userId mangaId now1).2 userId mangaId now2).2
      userId mangaId).1 =
    (checkBookmark db userId mangaId).1 := by
  unfold toggleBookmark checkBookmark
  rw [hm]
  cases hb : db.bookmarks.find? (fun b => b.userId == userId && b.mangaId == mangaId) with
  | some b =>
    dsimp only
    rw [hm, find?_filter_neg]
    dsimp only
    rw [find?_append_singleton_of_none _ _ _ (find?_filter_neg _ _) (by simp)]
  | none =>
    dsimp only
    rw [hm, find?_append_singleton_of_none _ _ _ hb (by simp)]
    dsimp only
    rw [filter_append_singleton_none _ _ _ hb (by simp), hb]

/-- Witness for C5: toggling twice for user 7 on manga 1 of `wDB` ends with
no bookmark, exactly as before. -/
theorem toggleBookmark_twice_restores_witness :
    (checkBookmark
      (toggleBookmark (toggleBookmark wDB 7 1 5).2 7 1 6).2 7 1).1 =
    (checkBookmark wDB 7 1).1 :=
  toggleBookmark_twice_restores wDB 7 1 5 6 wManga rfl

/-- Every element of a list is bounded by its max-fold. -/
theorem le_foldr_max (l : List Nat) : ∀ x ∈ l, x ≤ l.foldr max 0 := by
  induction l with
  | nil => simp
  | cons a t ih =>
    intro x hx
    rcases List.mem_cons.mp hx with rfl | hx2
    · simp [List.foldr_cons, le_max_iff]
    · simp only [List.foldr_cons, le_max_iff]
      exact Or.inr (ih x hx2)

/-- A fresh id is not already present. -/
theorem freshId_not_mem (ids : List Nat) : freshId ids ∉ ids := by
  intro hmem
  have h2 := le_foldr_max ids _ hmem
  unfold freshId at h2
  omega

/-- Mapping a key-preserving function over a list preserves the key list. -/
theorem map_key_of_preserve {α : Type} (l : List α) (f : α → α) (g : α → Nat)
    (hf : ∀ a, g (f a) = g a) : (l.map f).map g = l.map g := by
  rw [List.map_map]
  exact List.map_congr_left (fun a _ => hf a)

/-- In a list whose keys are unique, the filter for the key found by `find?`
is exactly that one hit. -/
theorem filter_key_eq_singleton {α : Type} (l : List α) (g : α → Nat) (k : Nat)
    (ch : α) (hn : (l.map g).Nodup) (hf : l.find? (fun c => g c == k) = some ch) :
    l.filter (fun c => g c == k) = [ch] := by
  induction l with
  | nil => simp at hf
  | cons a t ih =>
    rw [List.map_cons] at hn
    by_cases ha : (g a == k) = true
    · rw [@List.find?_cons_of_pos α (fun c => g c == k) a t ha] at hf
      have haeq : a = ch := by
        simpa using hf
      subst haeq
      rw [@List.filter_cons_of_pos α (fun c => g c == k) a t ha]
      have hnone : t.filter (fun c => g c == k) = [] := by
        rw [List.filter_eq_nil_iff]
        intro x hx
        have hk : g a = k := by
          simpa using ha
        have hgx : g x ≠ g a := by
          intro hcontra
          exact (List.nodup_cons.mp hn).1 (hcontra ▸ List.mem_map_of_mem g hx)
        simp only [beq_iff_eq]
        rw [← hk]
        exact hgx
      rw [hnone]
    · rw [@List.find?_cons_of_neg α (fun c => g c == k) a t ha] at hf
      rw [@List.filter_cons_of_neg α (fun c => g c == k) a t ha]
      exact ih (List.nodup_cons.mp hn).2 hf

/-- A successful `createChapter` preserves well-formedness and the
chapter-count invariant: the new chapter row and the `totalChapters`
increment land together; a failed call leaves the store unchanged. -/
theorem createChapter_preserves_inv (db : DB) (mangaId : Nat)
    (input : ChapterInput) (userId : Nat) (userRole : Role) (now : Nat)
    (hwf : idsNodup db) (hinv : chapterCountInv db) :
    idsNodup (createChapter db mangaId input userId userRole now).2 ∧
    chapterCountInv (createChapter db mangaId input userId userRole now).2 := by
  unfold createChapter
  cases hfind : db.mangas.find? (fun m => m.id == mangaId) with
  | none => exact ⟨hwf, hinv⟩
  | some manga =>
    dsimp only
    by_cases hden : manga.uploaderId ≠ userId ∧ userRole ≠ Role.ADMIN
    · rw [if_pos hden]
      exact ⟨hwf, hinv⟩
    · rw [if_neg hden]
      by_cases hdup : (db.chapters.find? (fun c =>
          c.mangaId == mangaId && c.chapterNumber == input.chapterNumber)).isSome = true
      · rw [if_pos hdup]
        exact ⟨hwf, hinv⟩
      · rw [if_neg hdup]
        by_cases himg : input.images.length = 0
        · rw [if_pos himg]
          exact ⟨hwf, hinv⟩
        · rw [if_neg himg]
          constructor
          · constructor
            · rw [map_key_of_preserve]
              · exact hwf.1
              · intro a
                by_cases h : (a.id == mangaId) = true <;> simp [h]
            · rw [List.map_append]
              refine List.Nodup.append hwf.2 (by simp) ?_
              simp only [List.map_cons, List.map_nil, List.disjoint_singleton]
              exact freshId_not_mem _
          · intro mres hmres
            rw [List.mem_map] at hmres
            obtain ⟨m, hm, hfm⟩ := hmres
            subst hfm
            have hcount := hinv m hm
            by_cases hid : (m.id == mangaId) = true
            · have hideq : m.id = mangaId := by
                simpa using hid
              rw [if_pos hid]
              rw [List.filter_append, List.length_append]
              have hsingle : (([newChapter db mangaId input manga now].filter
                  (fun c => c.mangaId == m.id)).length) = 1 := by
                simp [newChapter, hideq]
              rw [hsingle]
              dsimp only
              push_cast
              omega
            · rw [if_neg hid]
              rw [List.filter_append, List.length_append]
              have hzero : (([newChapter db mangaId input manga now].filter
                  (fun c => c.mangaId == m.id)).length) = 0 := by
                have hne : ¬ m.id = mangaId := by
                  simpa using hid
                have hbeq : (mangaId == m.id) = false := by
                  simp only [beq_eq_false_iff_ne, ne_eq]
                  exact fun h => hne h.symm
                simp [newChapter, List.filter_cons, hbeq]
              rw [hzero]
              simpa using hcount

/-- A successful `deleteChapter` preserves well-formedness and the
chapter-count invariant: exactly the found chapter row disappears and the
owning manga's `totalChapters` decrement lands with it; a failed call leaves
the store unchanged. -/
theorem deleteChapter_preserves_inv (db : DB) (chapterId userId : Nat)
    (userRole : Role) (hwf : idsNodup db) (hinv : chapterCountInv db) :
    idsNodup (deleteChapter db chapterId userId userRole).2 ∧
    chapterCountInv (deleteChapter db chapterId userId userRole).2 := by
  unfold deleteChapter
  cases hfind : db.chapters.find? (fun c => c.id == chapterId) with
  | none => exact ⟨hwf, hinv⟩
  | some chapter =>
    dsimp only
    cases hmfind : db.mangas.find? (fun m => m.id == chapter.mangaId) with
    | none => exact ⟨hwf, hinv⟩
    | some manga =>
      dsimp only
      by_cases hden : manga.uploaderId ≠ userId ∧ userRole ≠ Role.ADMIN
      · rw [if_pos hden]
        exact ⟨hwf, hinv⟩
      · rw [if_neg hden]
        dsimp only
        have hfs := filter_key_eq_singleton db.chapters Chapter.id chapterId
          chapter hwf.2 hfind
        have happ := List.filter_append_perm (fun c => c.id == chapterId) db.chapters
        rw [hfs] at happ
        have hperm : db.chapters.Perm
            (chapter :: db.chapters.filter (fun c => !(c.id == chapterId))) :=
          happ.symm
        have hnotform : (fun c : Chapter => decide (¬ (c.id == chapterId) = true)) =
            (fun c : Chapter => !(c.id == chapterId)) := by
          funext c
          cases h : (c.id == chapterId) <;> simp [h]
        constructor
        · constructor
          · rw [map_key_of_preserve]
            · exact hwf.1
            · intro a
              by_cases h : (a.id == chapter.mangaId) = true <;> simp [h]
          · exact List.Sublist.nodup
              (List.Sublist.map Chapter.id (List.filter_sublist db.chapters)) hwf.2
        · intro mres hmres
          rw [List.mem_map] at hmres
          obtain ⟨m, hm, hfm⟩ := hmres
          subst hfm
          have hcount := hinv m hm
          by_cases hid : (m.id == chapter.mangaId) = true
          · have hideq : m.id = chapter.mangaId := by
              simpa using hid
            rw [if_pos hid]
            dsimp only
            rw [hnotform]
            have hcp := hperm.countP_eq (fun c => c.mangaId == m.id)
            rw [List.countP_cons] at hcp
            have hpch : (chapter.mangaId == m.id) = true := by
              simp [hideq]
            rw [if_pos hpch] at hcp
            rw [List.countP_eq_length_filter, List.countP_eq_length_filter] at hcp
            rw [hcount]
            omega
          · rw [if_neg hid]
            dsimp only
            rw [hnotform]
            have hcp := hperm.countP_eq (fun c => c.mangaId == m.id)
            rw [List.countP_cons] at hcp
            have hpch : ¬ (chapter.mangaId == m.id) = true := by
              intro hcontra
              have hcmeq : chapter.mangaId = m.id := by
                simpa using hcontra
              exact hid (by simp [hcmeq])
            rw [if_neg hpch] at hcp
            rw [List.countP_eq_length_filter, List.countP_eq_length_filter] at hcp
            rw [hcount]
            omega

/-- C1: for every manga, after any sequence of chapter create and delete
operations — each mutating the store only when it completes successfully —
`totalChapters` equals the number of chapter rows referencing that manga:
the successful create appends one row with the `+1` increment, the
successful delete removes exactly one row with the `-1` decrement, and a
failed operation leaves the store untouched. -/
theorem chapterCount_matches_rows (ops : List ChapterOp) (db : DB)
    (hwf : idsNodup db) (hinv : chapterCountInv db) :
    idsNodup (applyChapterOps db ops) ∧
    chapterCountInv (applyChapterOps db ops) := by
  induction ops generalizing db with
  | nil => exact ⟨hwf, hinv⟩
  | cons op rest ih =>
    cases op with
    | create mangaId input userId userRole now =>
      have hstep := createChapter_preserves_inv db mangaId input userId userRole now hwf hinv
      exact ih _ hstep.1 hstep.2
    | delete chapterId userId userRole =>
      have hstep := deleteChapter_preserves_inv db chapterId userId userRole hwf hinv
      exact ih _ hstep.1 hstep.2

/-- Witness for C1: on `wDB` (one manga with one chapter and counter 1), a
successful create of chapter 2 followed by a successful delete of chapter 10
keeps `totalChapters` equal to the number of chapter rows. -/
theorem chapterCount_matches_rows_witness :
    chapterCountInv (applyChapterOps wDB
      [ChapterOp.create 1 ⟨2, none, ["u2"]⟩ 3 Role.UPLOADER 7,
       ChapterOp.delete 10 3 Role.UPLOADER]) :=
  (chapterCount_matches_rows
    [ChapterOp.create 1 ⟨2, none, ["u2"]⟩ 3 Role.UPLOADER 7,
     ChapterOp.delete 10 3 Role.UPLOADER] wDB
    (by constructor <;> decide)
    (by intro m hm
        simp only [wDB, List.mem_singleton] at hm
        subst hm
        rfl)).2

/-- Keeping the first row per distinct manga selects a sublist. -/
theorem dedupByMangaId_sublist (l : List ReadingHistory) :
    (dedupByMangaId l).Sublist l := by
  induction l using dedupByMangaId.induct with
  | case1 => simp [dedupByMangaId]
  | case2 h t ih =>
    rw [dedupByMangaId]
    exact List.Sublist.cons₂ h (ih.trans (List.filter_sublist t))

/-- The manga ids kept by `dedupByMangaId` are pairwise distinct. -/
theorem dedupByMangaId_mids_nodup (l : List ReadingHistory) :
    ((dedupByMangaId l).map ReadingHistory.mangaId).Nodup := by
  induction l using dedupByMangaId.induct with
  | case1 => simp [dedupByMangaId]
  | case2 h t ih =>
    rw [dedupByMangaId, List.map_cons, List.nodup_cons]
    refine ⟨?_, ih⟩
    intro hmem
    rw [List.mem_map] at hmem
    obtain ⟨x, hx, hxid⟩ := hmem
    have hx2 := (dedupByMangaId_sublist _).mem hx
    have := (List.mem_filter.mp hx2).2
    simp at this
    exact this hxid

/-- On a list ordered by `lastReadAt` descending, the first row kept per
manga dominates every row of that manga. -/
theorem dedupByMangaId_max (l : List ReadingHistory)
    (hp : l.Pairwise (fun a b => b.lastReadAt ≤ a.lastReadAt)) :
    ∀ h ∈ dedupByMangaId l, ∀ g ∈ l, g.mangaId = h.mangaId →
      g.lastReadAt ≤ h.lastReadAt := by
  induction l using dedupByMangaId.induct with
  | case1 => simp [dedupByMangaId]
  | case2 a t ih =>
    rw [dedupByMangaId]
    intro h hmemh g hmemg hmid
    rcases List.mem_cons.mp hmemh with rfl | hrest
    · rcases List.mem_cons.mp hmemg with rfl | hgt
      · exact le_refl _
      · exact (List.pairwise_cons.mp hp).1 g hgt
    · have hfilter_pair : (t.filter (fun g => ¬ g.mangaId == a.mangaId)).Pairwise
          (fun x y => y.lastReadAt ≤ x.lastReadAt) :=
        List.Pairwise.sublist (List.filter_sublist t) ((List.pairwise_cons.mp hp).2)
      have hinner := ih hfilter_pair h hrest
      have hmemh2 := (dedupByMangaId_sublist _).mem hrest
      have hhne : ¬ h.mangaId = a.mangaId := by
        have := (List.mem_filter.mp hmemh2).2
        simpa using this
      rcases List.mem_cons.mp hmemg with rfl | hgt
      · exact absurd hmid.symm hhne
      · have hgfilter : g ∈ t.filter (fun g => ¬ g.mangaId == a.mangaId) := by
          rw [List.mem_filter]
          refine ⟨hgt, ?_⟩
          simp only [decide_eq_true_eq, beq_iff_eq]
          rw [hmid]
          exact hhne
        exact hinner g hgfilter hmid

/-- `dedupByMangaId` keeps exactly one row per distinct manga id. -/
theorem dedupByMangaId_length (l : List ReadingHistory) :
    (dedupByMangaId l).length = (l.map ReadingHistory.mangaId).toFinset.card := by
  induction l using dedupByMangaId.induct with
  | case1 => simp [dedupByMangaId]
  | case2 h t ih =>
    rw [dedupByMangaId, List.length_cons, ih]
    have hset : ((t.filter (fun g => ¬ g.mangaId == h.mangaId)).map
        ReadingHistory.mangaId).toFinset =
        ((t.map ReadingHistory.mangaId).toFinset).erase h.mangaId := by
      ext x
      simp only [List.mem_toFinset, List.mem_map, List.mem_filter, Finset.mem_erase]
      constructor
      · rintro ⟨g, ⟨hgt, hgp⟩, rfl⟩
        simp at hgp
        exact ⟨hgp, g, hgt, rfl⟩
      · rintro ⟨hxne, g, hgt, rfl⟩
        exact ⟨g, ⟨hgt, by simpa using hxne⟩, rfl⟩
    rw [hset, List.map_cons, List.toFinset_cons]
    have hie : insert h.mangaId (((t.map ReadingHistory.mangaId).toFinset).erase h.mangaId) =
        insert h.mangaId (t.map ReadingHistory.mangaId).toFinset := by
      ext x
      simp only [Finset.mem_insert, Finset.mem_erase]
      constructor
      · rintro (rfl | ⟨hne, hx⟩)
        · exact Or.inl rfl
        · exact Or.inr hx
      · rintro (rfl | hx)
        · exact Or.inl rfl
        · by_cases hxh : x = h.mangaId
          · exact Or.inl hxh
          · exact Or.inr ⟨hxh, hx⟩
    rw [← hie, Finset.card_insert_of_not_mem (Finset.not_mem_erase _ _)]

/-- C6: the continue-reading query returns at most one entry per distinct
manga — for each manga the row with the latest `lastReadAt` among the user's
rows — ordered by `lastReadAt` descending and truncated to the requested
limit, so its length is the minimum of the limit and the number of distinct
mangas the user has read. -/
theorem continueReading_spec (db : DB) (userId limit : Nat) :
    ((getContinueReading db userId limit).map ReadingHistory.mangaId).Nodup ∧
    (∀ h ∈ getContinueReading db userId limit,
      h ∈ db.histories.filter (fun g => g.userId == userId) ∧
      ∀ g ∈ db.histories.filter (fun g => g.userId == userId),
        g.mangaId = h.mangaId → g.lastReadAt ≤ h.lastReadAt) ∧
    (getContinueReading db userId limit).Pairwise
      (fun a b => b.lastReadAt ≤ a.lastReadAt) ∧
    (getContinueReading db userId limit).length =
      min limit ((db.histories.filter (fun g => g.userId == userId)).map
        ReadingHistory.mangaId).toFinset.card := by
  unfold getContinueReading
  dsimp only
  set mine := db.histories.filter (fun g => g.userId == userId) with hmine
  set le := fun a b : ReadingHistory => decide (b.lastReadAt ≤ a.lastReadAt) with hle
  have htrans : ∀ a b c : ReadingHistory, le a b = true → le b c = true → le a c = true := by
    intro a b c hab hbc
    simp only [hle, decide_eq_true_eq] at hab hbc ⊢
    omega
  have htotal : ∀ a b : ReadingHistory, (le a b || le b a) = true := by
    intro a b
    simp only [hle, Bool.or_eq_true, decide_eq_true_eq]
    omega
  have hsorted0 := List.sorted_mergeSort htrans htotal mine
  have hsorted : (mine.mergeSort le).Pairwise
      (fun a b => b.lastReadAt ≤ a.lastReadAt) := by
    refine hsorted0.imp ?_
    intro a b hab
    simpa [hle] using hab
  have hperm : (mine.mergeSort le).Perm mine := List.mergeSort_perm mine le
  refine ⟨?_, ?_, ?_, ?_⟩
  · exact List.Sublist.nodup
      (List.Sublist.map ReadingHistory.mangaId (List.take_sublist _ _))
      (dedupByMangaId_mids_nodup _)
  · intro h hmem
    have hdd : h ∈ dedupByMangaId (mine.mergeSort le) :=
      (List.take_sublist _ _).mem hmem
    have hms : h ∈ mine.mergeSort le := (dedupByMangaId_sublist _).mem hdd
    refine ⟨hperm.mem_iff.mp hms, ?_⟩
    intro g hg hmid
    exact dedupByMangaId_max _ hsorted h hdd g (hperm.mem_iff.mpr hg) hmid
  · exact List.Pairwise.sublist
      ((List.take_sublist _ _).trans (dedupByMangaId_sublist _)) hsorted
  · rw [List.length_take, dedupByMangaId_length]
    congr 1
    rw [List.toFinset_eq_of_perm _ _ (hperm.map ReadingHistory.mangaId)]

/-- A reading history row for the continue-reading witness. -/
def wH1 : ReadingHistory :=
  { id := 1, userId := 7, mangaId := 1, chapterId := 10, currentPage := 3,
    totalPages := 10, progressPercent := 30, isCompleted := false,
    lastReadAt := 10 }

/-- A later row of the same user on the same manga. -/
def wH2 : ReadingHistory :=
  { id := 2, userId := 7, mangaId := 1, chapterId := 11, currentPage := 5,
    totalPages := 10, progressPercent := 50, isCompleted := false,
    lastReadAt := 20 }

/-- A row of the same user on a second manga. -/
def wH3 : ReadingHistory :=
  { id := 3, userId := 7, mangaId := 2, chapterId := 12, currentPage := 1,
    totalPages := 10, progressPercent := 10, isCompleted := false,
    lastReadAt := 15 }

/-- A store where user 7 has three ProgressRecords across two mangas. -/
def wDB6 : DB :=
  { mangas := [], chapters := [], authors := [], genres := [],
    mangaAuthors := [], mangaGenres := [], bookmarks := [],
    histories := [wH1, wH2, wH3], chapterViews := [] }

/-- Witness for C6: a user with 3 ProgressRecords across 2 mangas gets
exactly 2 continue-reading entries. -/
theorem continueReading_spec_witness :
    (getContinueReading wDB6 7 10).length = 2 := by
  have h := (continueReading_spec wDB6 7 10).2.2.2
  rw [h]
  rfl

/-- Replacing an entry by the value it already holds changes nothing. -/
theorem set_of_getElem? {α : Type} :
    ∀ (l : List α) (i : Nat) (a : α), l[i]? = some a → l.set i a = l := by
  intro l
  induction l with
  | nil =>
    intro i a h
    simp at h
  | cons x t ih =>
    intro i a h
    cases i with
    | zero =>
      simp at h
      simp [h]
    | succ k =>
      simp only [List.getElem?_cons_succ] at h
      simp [List.set_cons_succ, ih k a h]

/-- Moving the entry at position `k` to the front while writing `x` in its
place is a permutation exchange. -/
theorem cons_set_perm {α : Type} :
    ∀ (t : List α) (k : Nat) (b x : α), t[k]? = some b →
      (b :: t.set k x).Perm (x :: t) := by
  intro t
  induction t with
  | nil =>
    intro k b x h
    simp at h
  | cons y t ih =>
    intro k b x h
    cases k with
    | zero =>
      simp only [List.getElem?_cons_zero, Option.some.injEq] at h
      rw [List.set_cons_zero, h]
      exact List.Perm.swap x b t
    | succ m =>
      simp only [List.getElem?_cons_succ] at h
      rw [List.set_cons_succ]
      exact ((List.Perm.swap y b _).trans ((ih m b x h).cons y)).trans
        (List.Perm.swap x y t)

/-- A double `set` realizing an exchange of two present entries permutes the
list. -/
theorem set_set_perm {α : Type} :
    ∀ (l : List α) (i j : Nat) (a b : α), l[i]? = some a → l[j]? = some b →
      ((l.set i b).set j a).Perm l := by
  intro l
  induction l with
  | nil =>
    intro i j a b ha hb
    simp at ha
  | cons x t ih =>
    intro i j a b ha hb
    cases i with
    | zero =>
      simp only [List.getElem?_cons_zero, Option.some.injEq] at ha
      rw [← ha]
      cases j with
      | zero =>
        rw [List.set_cons_zero, List.set_cons_zero]
      | succ m =>
        simp only [List.getElem?_cons_succ] at hb
        rw [List.set_cons_zero, List.set_cons_succ]
        exact cons_set_perm t m b x hb
    | succ k =>
      simp only [List.getElem?_cons_succ] at ha
      cases j with
      | zero =>
        simp only [List.getElem?_cons_zero, Option.some.injEq] at hb
        rw [← hb]
        rw [List.set_cons_succ, List.set_cons_zero]
        exact cons_set_perm t k a x ha
      | succ m =>
        simp only [List.getElem?_cons_succ] at hb
        rw [List.set_cons_succ, List.set_cons_succ]
        exact (ih k m a b ha hb).cons x

/-- `listSwap` always yields a permutation of the input. -/
theorem listSwap_perm {α : Type} (l : List α) (i j : Nat) :
    (listSwap l i j).Perm l := by
  unfold listSwap
  cases hi : l[i]? with
  | none => exact List.Perm.refl l
  | some a =>
    cases hj : l[j]? with
    | none => exact List.Perm.refl l
    | some b => exact set_set_perm l i j a b hi hj

/-- The Fisher-Yates loop yields a permutation of the input for any choice
list. -/
theorem fyLoop_perm {α : Type} :
    ∀ (cs : List Nat) (l : List α) (i : Nat), (fyLoop l cs i).Perm l := by
  intro cs
  induction cs with
  | nil =>
    intro l i
    exact List.Perm.refl l
  | cons c rest ih =>
    intro l i
    exact (ih _ _).trans (listSwap_perm l i (c % (i + 1)))

/-- The shuffled id list is a permutation of the eligible ids. -/
theorem fisherYates_perm {α : Type} (l : List α) (cs : List Nat) :
    (fisherYates l cs).Perm l :=
  fyLoop_perm cs l (l.length - 1)

/-- `listSwap` preserves length. -/
theorem listSwap_length {α : Type} (l : List α) (i j : Nat) :
    (listSwap l i j).length = l.length := by
  unfold listSwap
  cases l[i]? <;> cases l[j]? <;> simp [List.length_set]

/-- Swapping a position with itself changes nothing. -/
theorem listSwap_same {α : Type} (l : List α) (i : Nat) : listSwap l i i = l := by
  unfold listSwap
  cases hli : l[i]? with
  | none => rfl
  | some a =>
    dsimp only
    rw [List.set_set]
    exact set_of_getElem? l i a hli

/-- A swap of two positions inside the prefix commutes with appending. -/
theorem listSwap_append_left {α : Type} (m : List α) (x : α) (i j : Nat)
    (hi : i < m.length) (hj : j < m.length) :
    listSwap (m ++ [x]) i j = listSwap m i j ++ [x] := by
  unfold listSwap
  rw [List.getElem?_append_left hi, List.getElem?_append_left hj,
    List.getElem?_eq_getElem hi, List.getElem?_eq_getElem hj]
  dsimp only
  rw [List.set_append, if_pos hi, List.set_append]
  rw [if_pos (by rw [List.length_set]; exact hj)]

/-- Swapping the appended last position with a prefix position extracts the
prefix entry. -/
theorem listSwap_concat {α : Type} (m : List α) (x : α) (j : Nat)
    (hj : j < m.length) :
    listSwap (m ++ [x]) m.length j = m.set j x ++ [m.getD j x] := by
  unfold listSwap
  rw [List.getElem?_concat_length, List.getElem?_append_left hj,
    List.getElem?_eq_getElem hj, List.getD_eq_getElem m x hj]
  dsimp only
  rw [List.set_append, if_neg (lt_irrefl m.length), Nat.sub_self,
    List.set_cons_zero, List.set_append, if_pos hj]

/-- The loop run from inside the prefix never moves the appended last
element. -/
theorem fyLoop_append {α : Type} :
    ∀ (cs : List Nat) (m : List α) (x : α) (i : Nat), i < m.length →
      fyLoop (m ++ [x]) cs i = fyLoop m cs i ++ [x] := by
  intro cs
  induction cs with
  | nil =>
    intro m x i hi
    rfl
  | cons c rest ih =>
    intro m x i hi
    have hj : c % (i + 1) ≤ i := Nat.le_of_lt_succ (Nat.mod_lt _ (Nat.succ_pos i))
    simp only [fyLoop]
    rw [listSwap_append_left m x i (c % (i + 1)) hi (lt_of_le_of_lt hj hi)]
    exact ih (listSwap m i (c % (i + 1))) x (i - 1)
      (by rw [listSwap_length]; omega)

/-- `allCs i` enumerates all `(i + 1)!` possible draw sequences. -/
theorem allCs_length : ∀ i, (allCs i).length = (i + 1).factorial := by
  intro i
  induction i with
  | zero => rfl
  | succ k ih =>
    rw [allCs, List.length_flatMap]
    have hconst : (List.range (k + 2)).map
        (List.length ∘ fun j => (allCs k).map (j :: ·)) =
        List.replicate (k + 2) (allCs k).length := by
      have heq : (List.length ∘ fun j : Nat => (allCs k).map (j :: ·)) =
          fun _ : Nat => (allCs k).length := by
        funext j
        simp
      rw [heq,
        show (fun _ : Nat => (allCs k).length) = Function.const Nat ((allCs k).length) from rfl,
        List.map_const, List.length_range]
    rw [hconst, List.sum_replicate, smul_eq_mul, ih, Nat.factorial_succ (k + 1)]

/-- A sum over a range where a single summand is 1 and the rest vanish. -/
theorem sum_map_range_single (f : Nat → Nat) :
    ∀ (n j0 : Nat), j0 < n → f j0 = 1 → (∀ j, j < n → j ≠ j0 → f j = 0) →
      ((List.range n).map f).sum = 1 := by
  intro n
  induction n with
  | zero =>
    intro j0 hj0
    omega
  | succ k ih =>
    intro j0 hj0 h1 h0
    rw [List.range_succ, List.map_append, List.sum_append]
    by_cases hjk : j0 = k
    · subst hjk
      have hz : ((List.range j0).map f).sum = 0 := by
        apply List.sum_eq_zero
        intro v hv
        rw [List.mem_map] at hv
        obtain ⟨j, hj, rfl⟩ := hv
        have hjlt := List.mem_range.mp hj
        exact h0 j (by omega) (by omega)
      rw [hz]
      simp [h1]
    · have hfk : f k = 0 := h0 k (Nat.lt_succ_self k) (Ne.symm hjk)
      rw [ih j0 (by omega) h1 (fun j hjlt hne => h0 j (by omega) hne)]
      simp [hfk]

/-- Key counting argument: over a duplicate-free id list of length `n`,
every permutation is produced by exactly one of the `n!` draw sequences of
the Fisher-Yates loop. -/
theorem fyLoop_count : ∀ (n : Nat) (l : List Nat), l.length = n → l.Nodup →
    ∀ p : List Nat, p.Perm l →
      ((allCs (n - 1)).countP (fun cs => fyLoop l cs (n - 1) == p)) = 1 := by
  intro n
  induction n with
  | zero =>
    intro l hlen hnd p hp
    rw [List.length_eq_zero] at hlen
    subst hlen
    have hpnil : p = [] := List.Perm.eq_nil hp
    subst hpnil
    rfl
  | succ k ih =>
    intro l hlen hnd p hp
    cases k with
    | zero =>
      obtain ⟨a, rfl⟩ := List.length_eq_one.mp hlen
      have hpa : p = [a] := List.perm_singleton.mp hp
      subst hpa
      simp [allCs, fyLoop, List.countP_cons]
    | succ k2 =>
      rcases List.eq_nil_or_concat l with rfl | ⟨m, x, rfl⟩
      · simp at hlen
      rcases List.eq_nil_or_concat p with rfl | ⟨q, y, rfl⟩
      · have hple := hp.length_eq
        simp [List.concat_eq_append] at hple
      simp only [List.concat_eq_append] at hnd hlen hp ⊢
      have hmlen : m.length = k2 + 1 := by
        have hlen2 := hlen
        simp at hlen2
        omega
      have hsub : k2 + 1 + 1 - 1 = k2 + 1 := rfl
      rw [hsub, allCs, List.countP_flatMap]
      have hlast : ∀ j, j < k2 + 2 → listSwap (m ++ [x]) (k2 + 1) j =
          (if j = k2 + 1 then m else m.set j x) ++ [(m ++ [x]).getD j x] := by
        intro j hj
        by_cases hjk : j = k2 + 1
        · rw [if_pos hjk, hjk, listSwap_same]
          have hget : (m ++ [x]).getD (k2 + 1) x = x := by
            rw [List.getD_eq_getElem (m ++ [x]) x (by simp [hmlen])]
            exact List.getElem_concat_length m x (k2 + 1) (by omega) _
          rw [hget]
        · have hjm : j < m.length := by omega
          rw [if_neg hjk]
          have hcc := listSwap_concat m x j hjm
          rw [hmlen] at hcc
          rw [hcc]
          have hget : (m ++ [x]).getD j x = m.getD j x := by
            rw [List.getD_eq_getElem (m ++ [x]) x (by simp [hmlen]; omega),
              List.getD_eq_getElem m x hjm]
            exact List.getElem_append_left hjm
          rw [hget]
      have hinner : ∀ j, j < k2 + 2 →
          ((List.countP (fun cs => fyLoop (m ++ [x]) cs (k2 + 1) == q ++ [y])) ∘
            fun j => (allCs k2).map (j :: ·)) j =
          (if (m ++ [x]).getD j x = y then 1 else 0) := by
        intro j hj
        dsimp only [Function.comp]
        rw [List.countP_map]
        have hpredeq : ∀ cs : List Nat,
            ((fun cs => fyLoop (m ++ [x]) cs (k2 + 1) == q ++ [y]) ∘ (j :: ·)) cs =
            (fyLoop ((if j = k2 + 1 then m else m.set j x) ++
              [(m ++ [x]).getD j x]) cs k2 == q ++ [y]) := by
          intro cs
          dsimp only [Function.comp]
          rw [show fyLoop (m ++ [x]) (j :: cs) (k2 + 1) =
              fyLoop (listSwap (m ++ [x]) (k2 + 1) (j % (k2 + 2))) cs k2 from rfl]
          rw [Nat.mod_eq_of_lt hj, hlast j hj]
        have hpreflen : (if j = k2 + 1 then m else m.set j x).length = k2 + 1 := by
          by_cases hjk : j = k2 + 1 <;> simp [hjk, List.length_set, hmlen]
        have hpeel : ∀ cs : List Nat,
            fyLoop ((if j = k2 + 1 then m else m.set j x) ++
              [(m ++ [x]).getD j x]) cs k2 =
            fyLoop (if j = k2 + 1 then m else m.set j x) cs k2 ++
              [(m ++ [x]).getD j x] := by
          intro cs
          exact fyLoop_append cs _ _ k2 (by rw [hpreflen]; omega)
        by_cases hy : (m ++ [x]).getD j x = y
        · rw [if_pos hy]
          have hswapnd : ((if j = k2 + 1 then m else m.set j x) ++
              [(m ++ [x]).getD j x]).Nodup := by
            rw [← hlast j hj]
            exact ((listSwap_perm (m ++ [x]) (k2 + 1) j).symm).nodup hnd
          have hprefnd : (if j = k2 + 1 then m else m.set j x).Nodup :=
            (List.nodup_append.mp hswapnd).1
          have hqperm : q.Perm (if j = k2 + 1 then m else m.set j x) := by
            have h1 : (q ++ [y]).Perm ((if j = k2 + 1 then m else m.set j x) ++ [y]) := by
              have h1a : (q ++ [y]).Perm (listSwap (m ++ [x]) (k2 + 1) j) :=
                hp.trans (listSwap_perm (m ++ [x]) (k2 + 1) j).symm
              rw [hlast j hj, hy] at h1a
              exact h1a
            have h2 : (y :: q).Perm (y :: (if j = k2 + 1 then m else m.set j x)) :=
              ((List.perm_append_singleton y q).symm.trans h1).trans
                (List.perm_append_singleton y _)
            exact h2.cons_inv
          have hcongr : ∀ cs ∈ allCs k2,
              (((fun cs => fyLoop (m ++ [x]) cs (k2 + 1) == q ++ [y]) ∘ (j :: ·)) cs
                = true) ↔
              ((fyLoop (if j = k2 + 1 then m else m.set j x) cs k2 == q) = true) := by
            intro cs hcs
            rw [hpredeq cs, hpeel cs]
            constructor
            · intro hb
              have heq := List.append_inj' (beq_iff_eq.mp hb) rfl
              exact beq_iff_eq.mpr heq.1
            · intro hb
              have heq := beq_iff_eq.mp hb
              rw [heq, hy]
              simp
          rw [List.countP_congr hcongr]
          exact ih _ (by rw [hpreflen]) hprefnd q hqperm
        · rw [if_neg hy]
          rw [List.countP_eq_zero]
          intro cs hcs
          rw [hpredeq cs]
          intro hcontra
          rw [hpeel cs] at hcontra
          have heq := List.append_inj' (beq_iff_eq.mp hcontra) rfl
          have hlasteq : (m ++ [x]).getD j x = y := by
            have h2 := heq.2
            simpa using h2
          exact hy hlasteq
      have hymem : y ∈ m ++ [x] := hp.subset (by simp)
      obtain ⟨j0, hj0lt, hj0⟩ := List.getElem_of_mem hymem
      have hlenmx : (m ++ [x]).length = k2 + 2 := by
        simp [hmlen]
      apply sum_map_range_single _ (k2 + 2) j0 (by omega)
      · rw [hinner j0 (by omega)]
        rw [if_pos (by rw [List.getD_eq_getElem (m ++ [x]) x hj0lt]; exact hj0)]
      · intro j hjlt hne
        rw [hinner j hjlt]
        have hgetne : ¬ (m ++ [x]).getD j x = y := by
          intro hcontra
          rw [List.getD_eq_getElem (m ++ [x]) x (by omega)] at hcontra
          rw [← hj0] at hcontra
          exact hne ((hnd.getElem_inj_iff).mp hcontra)
        rw [if_neg hgetne]

/-- The eligible ids are duplicate-free when manga ids are. -/
theorem approvedIds_nodup (db : DB) (hwf : (db.mangas.map Manga.id).Nodup) :
    (approvedIds db).Nodup := by
  unfold approvedIds
  exact List.Sublist.nodup (List.Sublist.map Manga.id (List.filter_sublist _)) hwf

/-- C7: the random-sample operation selects its id prefix by a Fisher-Yates
shuffle of all APPROVED ids, so (i) the selected ids are pairwise distinct,
(ii) every returned manga is APPROVED, (iii) when the requested size equals
the pool size the selection is a permutation of the whole pool and the query
returns exactly the APPROVED rows, and (iv) the shuffle is unbiased: over
the `n!` equally-weighted draw sequences, every permutation of the id pool
is produced by exactly one sequence. -/
theorem getRandomManga_uniform (db : DB) (limit : Nat) (cs : List Nat)
    (hwf : (db.mangas.map Manga.id).Nodup) :
    (randomSelectedIds db limit cs).Nodup ∧
    (∀ m ∈ getRandomManga db limit cs, m.approvalStatus = ApprovalStatus.APPROVED) ∧
    (limit = (approvedIds db).length →
      (randomSelectedIds db limit cs).Perm (approvedIds db) ∧
      getRandomManga db limit cs =
        db.mangas.filter (fun m => m.approvalStatus == ApprovalStatus.APPROVED)) ∧
    (∀ p : List Nat, p.Perm (approvedIds db) →
      ((allCs ((approvedIds db).length - 1)).countP
        (fun cs2 => fisherYates (approvedIds db) cs2 == p)) = 1) ∧
    (allCs ((approvedIds db).length - 1)).length =
      (approvedIds db).length.factorial := by
  have hids : (approvedIds db).Nodup := approvedIds_nodup db hwf
  have hshufperm : (fisherYates (approvedIds db) cs).Perm (approvedIds db) :=
    fisherYates_perm _ _
  have hshufnd : (fisherYates (approvedIds db) cs).Nodup := hshufperm.symm.nodup hids
  refine ⟨?_, ?_, ?_, ?_, ?_⟩
  · exact List.Sublist.nodup (List.take_sublist _ _) hshufnd
  · intro m hm
    unfold getRandomManga at hm
    have hm2 := List.mem_filter.mp hm
    have h3 : m.id ∈ randomSelectedIds db limit cs := by
      have hc := hm2.2
      simpa using hc
    have hidmem : m.id ∈ approvedIds db :=
      hshufperm.subset ((List.take_sublist _ _).subset h3)
    unfold approvedIds at hidmem
    rw [List.mem_map] at hidmem
    obtain ⟨m2, hm2mem, hm2id⟩ := hidmem
    have hm2f := List.mem_filter.mp hm2mem
    have hm2eq : m2 = m := List.inj_on_of_nodup_map hwf hm2f.1 hm2.1 hm2id
    rw [← hm2eq]
    simpa using hm2f.2
  · intro hlim
    have htake : randomSelectedIds db limit cs = fisherYates (approvedIds db) cs := by
      unfold randomSelectedIds
      rw [hlim, ← hshufperm.length_eq, List.take_length]
    refine ⟨by rw [htake]; exact hshufperm, ?_⟩
    unfold getRandomManga
    apply List.filter_congr
    intro a ha
    by_cases happ : a.approvalStatus = ApprovalStatus.APPROVED
    · have haid : a.id ∈ approvedIds db := by
        unfold approvedIds
        exact List.mem_map_of_mem Manga.id (List.mem_filter.mpr ⟨ha, by simp [happ]⟩)
      have hmem : a.id ∈ randomSelectedIds db limit cs := by
        rw [htake]
        exact hshufperm.mem_iff.mpr haid
      simp [happ, hmem]
    · have haid : a.id ∉ approvedIds db := by
        intro hmem
        unfold approvedIds at hmem
        rw [List.mem_map] at hmem
        obtain ⟨m2, hm2mem, hm2id⟩ := hmem
        have hm2f := List.mem_filter.mp hm2mem
        have heq2 : m2 = a := List.inj_on_of_nodup_map hwf hm2f.1 ha hm2id
        rw [heq2] at hm2f
        exact happ (by simpa using hm2f.2)
      have hno : a.id ∉ randomSelectedIds db limit cs := by
        rw [htake]
        exact fun hmm => haid (hshufperm.subset hmm)
      simp [happ, hno]
  · intro p hperm
    unfold fisherYates
    exact fyLoop_count (approvedIds db).length (approvedIds db) rfl hids p hperm
  · rcases Nat.eq_zero_or_pos (approvedIds db).length with h0 | hpos
    · rw [h0]
      simpa using allCs_length 0
    · have hsucc : (approvedIds db).length - 1 + 1 = (approvedIds db).length := by
        omega
      exact (allCs_length _).trans (by rw [hsucc])

/-- An approved manga with a given id, for the random-sample witness. -/
def wManga5 (i : Nat) : Manga :=
  { id := i, title := "T", slug := "t", alternativeTitles := [],
    description := none, thumbnail := none, coverImage := none,
    status := MangaStatus.ONGOING, releaseYear := none,
    approvalStatus := ApprovalStatus.APPROVED, uploaderId := 3,
    totalChapters := 0, totalViews := 0, lastChapterAt := none }

/-- A store with five approved mangas and nothing else. -/
def wDB7 : DB :=
  { mangas := [wManga5 1, wManga5 2, wManga5 3, wManga5 4, wManga5 5],
    chapters := [], authors := [], genres := [], mangaAuthors := [],
    mangaGenres := [], bookmarks := [], histories := [], chapterViews := [] }

/-- Witness for C7: sampling 5 from the pool of 5 returns pairwise-distinct
ids and exactly the approved rows. -/
theorem getRandomManga_uniform_witness :
    (randomSelectedIds wDB7 5 [3, 2, 1, 0]).Nodup ∧
    getRandomManga wDB7 5 [3, 2, 1, 0] =
      wDB7.mangas.filter (fun m => m.approvalStatus == ApprovalStatus.APPROVED) := by
  have h := getRandomManga_uniform wDB7 5 [3, 2, 1, 0] (by decide)
  exact ⟨h.1, (h.2.2.1 (by rfl)).2⟩

end MangaCore